import Mathlib

/-!
Verification of the QBER active-compensation repository
(ELL14 rotation-stage driver and ContinuousPolarizationOptimizer).

The Python sources are shallowly embedded: degrees and QBER values become
rationals (the code's float arithmetic is exact rational arithmetic at every
input used in the theorems below; where IEEE-754 special values matter, namely
division by a zero second derivative in the coordinate-descent compute phase,
the embedding encodes the float semantics explicitly and says so in place),
pulse counts become integers, device responses become strings, and the
optimizer's mutable object state becomes an explicit state record threaded
through step functions.  Commands sent to a stage are returned as an explicit
list instead of being written to the serial port; the position read back from
the device after the moves of a step is passed in as an argument.
-/

/-- Model of Python `int(x)` applied to a real value: truncation toward zero
(`ELL14._deg_to_pulses` uses `int(degrees * self.pulses_per_turn / 360)`). -/
def pyInt (q : ℚ) : ℤ :=
  if q < 0 then ⌈q⌉ else ⌊q⌋

/-- `ELL14.ElliptecController._deg_to_pulses`:
`int(degrees * pulses_per_turn / 360)`.  The calibration constant
`pulses_per_turn` (143360 in the shipped class) is a parameter `ppt`. -/
def deg_to_pulses (ppt : ℚ) (degrees : ℚ) : ℤ :=
  pyInt (degrees * ppt / 360)

/-- `ELL14.ElliptecController._pulses_to_deg`: two's-complement correction
(`if pulses >= 0x80000000: pulses -= 0x100000000`) followed by
`pulses * 360.0 / pulses_per_turn`. -/
def pulses_to_deg (ppt : ℚ) (pulses : ℤ) : ℚ :=
  (((if 2 ^ 31 ≤ pulses then pulses - 2 ^ 32 else pulses) : ℤ) : ℚ) * 360 / ppt

/-- Model of Python `round(x, 2)` as used in `ELL14._update_position`:
round to the nearest multiple of 1/100.  Exact ties are rounded up here while
CPython rounds binary floats half-to-even; no claim below depends on the tie
rule. -/
def round2 (q : ℚ) : ℚ :=
  ((round (q * 100) : ℤ) : ℚ) / 100

/-- ASCII whitespace stripped by Python `int(str, 16)` before parsing
(space, tab, newline, carriage return, vertical tab, form feed; device
responses are ASCII because the driver decodes with `errors='ignore'`). -/
def isPyWS (c : Char) : Bool :=
  c == ' ' || c == '\t' || c == '\n' || c == '\r' ||
  c == Char.ofNat 11 || c == Char.ofNat 12

/-- Hexadecimal digit recognizer for Python `int(_, 16)`. -/
def isHexDigit (c : Char) : Bool :=
  (('0' ≤ c) && (c ≤ '9')) || (('a' ≤ c) && (c ≤ 'f')) || (('A' ≤ c) && (c ≤ 'F'))

/-- Numeric value of a hexadecimal digit. -/
def hexVal (c : Char) : ℕ :=
  if ('0' ≤ c) && (c ≤ '9') then c.toNat - '0'.toNat
  else if ('a' ≤ c) && (c ≤ 'f') then c.toNat - 'a'.toNat + 10
  else c.toNat - 'A'.toNat + 10

/-- Strip leading and trailing whitespace, as Python `int(str, 16)` does. -/
def stripWS (cs : List Char) : List Char :=
  ((cs.dropWhile isPyWS).reverse.dropWhile isPyWS).reverse

/-- Digit loop of Python `int(_, 16)`: hexadecimal digits with single
underscores allowed between digits (CPython's numeric-literal rule). -/
def hexGo : List Char → ℕ → Option ℕ
  | [], acc => some acc
  | c :: rest, acc =>
    if isHexDigit c then hexGo rest (16 * acc + hexVal c)
    else if c = '_' then
      match rest with
      | c2 :: rest2 =>
        if isHexDigit c2 then hexGo rest2 (16 * acc + hexVal c2) else none
      | [] => none
    else none

/-- One or more hexadecimal digits (with embedded underscores);
the first character must be a digit. -/
def parseHexDigits (cs : List Char) : Option ℕ :=
  match cs with
  | [] => none
  | c :: rest => if isHexDigit c then hexGo rest (hexVal c) else none

/-- After an `0x`/`0X` prefix CPython also allows one underscore before the
first digit (`int("0x_1f", 16)` is legal). -/
def parseAfterHexMark (cs : List Char) : Option ℕ :=
  match cs with
  | '_' :: rest => parseHexDigits rest
  | _ => parseHexDigits cs

/-- Unsigned part of Python `int(_, 16)`: optional `0x`/`0X` mark, then
digits. -/
def parseHexBody (cs : List Char) : Option ℕ :=
  match cs with
  | c0 :: c1 :: rest =>
    if c0 = '0' ∧ (c1 = 'x' ∨ c1 = 'X') then parseAfterHexMark rest
    else parseHexDigits cs
  | _ => parseHexDigits cs

/-- Model of Python `int(s, 16)`: `none` models the `ValueError` raised on an
unparsable string. -/
def pyIntHex (s : String) : Option ℤ :=
  match stripWS s.toList with
  | [] => none
  | c :: rest =>
    if c = '+' then (parseHexBody rest).map (fun n => (n : ℤ))
    else if c = '-' then (parseHexBody rest).map (fun n => -(n : ℤ))
    else (parseHexBody (c :: rest)).map (fun n => (n : ℤ))

/-- Python `resp[-8:]`: the last 8 characters (the whole string when it is
shorter than 8 characters). -/
def lastEight (s : String) : String :=
  String.mk (s.toList.drop (s.toList.length - 8))

/-- Value of a list of hexadecimal digits, most significant first. -/
def hexValue (cs : List Char) : ℕ :=
  cs.foldl (fun a c => 16 * a + hexVal c) 0

/-- Driver state: one `ELL14.ElliptecController` (serial-link plumbing is an
external collaborator and not part of the state). -/
structure ElliptecController where
  address : String
  position : ℚ
deriving DecidableEq

/-- `ElliptecController.__init__`: the address is stored verbatim (no
validation anywhere in the constructor) and the cached position is
initialized to `0.0`. -/
def ElliptecController.init (address : String) : ElliptecController :=
  { address := address, position := 0 }

/-- `ElliptecController.get_position_deg`: returns the cached position. -/
def get_position_deg (c : ElliptecController) : ℚ :=
  c.position

/-- `ElliptecController._update_position`: parse the last 8 characters of the
response with `int(_, 16)`; on success store
`round(_pulses_to_deg(value), 2)`, on `ValueError` keep the old position
(the `except` branch only prints). -/
def update_position (ppt : ℚ) (pos : ℚ) (resp : String) : ℚ :=
  match pyIntHex (lastEight resp) with
  | none => pos
  | some n => round2 (pulses_to_deg ppt n)

/-- Hexadecimal digit character (uppercase), for `format(_, '08X')`. -/
def hexDigitChar (n : ℕ) : Char :=
  if n < 10 then Char.ofNat ('0'.toNat + n) else Char.ofNat ('A'.toNat + n - 10)

/-- `format(pulses & 0xFFFFFFFF, '08X')`: 8 uppercase hex digits of the low
32 bits. -/
def toHex8 (pulses : ℤ) : String :=
  String.mk ((List.range 8).map (fun i => hexDigitChar ((pulses % 2 ^ 32).toNat / 16 ^ (7 - i) % 16)))

/-- `ElliptecController.move_absolute_deg`: degree argument is converted with
`_deg_to_pulses`, masked to 32 bits, sent as `ma` + 8 hex digits; the cached
position is then updated from the device response `resp`.  Returns the new
driver state and the command string sent. -/
def move_absolute_deg (ppt : ℚ) (c : ElliptecController) (degrees : ℚ) (resp : String) :
    ElliptecController × String :=
  ({ c with position := update_position ppt c.position resp },
   c.address ++ "ma" ++ toHex8 (deg_to_pulses ppt degrees))

/-- `ElliptecController.move_relative_deg`: same conversion and update,
command `mr`. -/
def move_relative_deg (ppt : ℚ) (c : ElliptecController) (degrees : ℚ) (resp : String) :
    ElliptecController × String :=
  ({ c with position := update_position ppt c.position resp },
   c.address ++ "mr" ++ toHex8 (deg_to_pulses ppt degrees))

/-- A move command issued by the optimizer to a waveplate
(`move_absolute_deg` / `move_relative_deg` on `self._waveplates[wp]`). -/
inductive Cmd where
  | moveAbs (wp : ℕ) (degrees : ℚ)
  | moveRel (wp : ℕ) (degrees : ℚ)
deriving DecidableEq

/-- `Compensation.ContinuousPolarizationOptimizer` instance state.  `wp0` and
`wp1` are the cached positions of the two `ElliptecController`s in
`self._waveplates` (what `get_position_deg` returns). -/
structure OptState where
  max_stepsize_deg : ℚ
  threshold : ℚ
  positions : ℚ × ℚ
  current_wp : ℕ
  current_pos : ℕ
  origin_position : ℚ
  qbers : ℚ × ℚ × ℚ
  n_stored : ℤ
  previous_qbers : List ℚ
  previous_positions : List (ℚ × ℚ)
  wp0 : ℚ
  wp1 : ℚ
deriving DecidableEq

/-- `ContinuousPolarizationOptimizer.__init__`: every argument is stored
without any validation; `_positions = zeros`, `_current_wp = 0`,
`_current_pos = 1`, `_origin_position = 0`, `_qbers = [0.1, 0.1, 0.1]`,
`_previous_qbers = [0.5]`, `_previous_positions = [zeros]`.  `w0`, `w1` are
the cached positions the supplied waveplate drivers happen to have. -/
def optimizer_init (max_stepsize_deg threshold : ℚ) (n_stored : ℤ) (w0 w1 : ℚ) : OptState :=
  { max_stepsize_deg := max_stepsize_deg
    threshold := threshold
    positions := (0, 0)
    current_wp := 0
    current_pos := 1
    origin_position := 0
    qbers := (1/10, 1/10, 1/10)
    n_stored := n_stored
    previous_qbers := [1/2]
    previous_positions := [(0, 0)]
    wp0 := w0
    wp1 := w1 }

/-- `self._waveplates[i].get_position_deg()` for the two waveplates. -/
def wp_cached (st : OptState) (i : ℕ) : ℚ :=
  if i = 0 then st.wp0 else st.wp1

/-- Model of `np.min` on a list (left fold of `min`; 0 on the empty list,
where NumPy would raise). -/
def listMin : List ℚ → ℚ
  | [] => 0
  | [x] => x
  | x :: y :: tl => min x (listMin (y :: tl))

/-- Model of `np.argmin` on a list: index of the first occurrence of the
minimum (NumPy keeps the earliest index on ties). -/
def argmin : List ℚ → ℕ
  | [] => 0
  | [_] => 0
  | x :: y :: tl => if x ≤ listMin (y :: tl) then 0 else argmin (y :: tl) + 1

/-- `Compensation.random_minimizer`, lines 94–97: adopt the freshly read
positions when the new QBER is strictly below every stored one, otherwise
fall back to the stored position row of the (first) minimal stored QBER. -/
def select_operating_point (st : OptState) (qber : ℚ) (positions : ℚ × ℚ) : ℚ × ℚ :=
  if qber < listMin st.previous_qbers then positions
  else st.previous_positions.getD (argmin st.previous_qbers) (0, 0)

/-- `Compensation.random_minimizer`, lines 99–104: append the new
`(qber, positions)` pair, dropping the oldest entry (`arr[1:]`) when the
buffer has reached `n_stored`. -/
def push_history (st : OptState) (qber : ℚ) (positions : ℚ × ℚ) : OptState :=
  if (st.previous_qbers.length : ℤ) < st.n_stored then
    { st with previous_qbers := st.previous_qbers ++ [qber]
              previous_positions := st.previous_positions ++ [positions] }
  else
    { st with previous_qbers := st.previous_qbers.tail ++ [qber]
              previous_positions := st.previous_positions.tail ++ [positions] }

/-- `ContinuousPolarizationOptimizer.random_minimizer`.  The random draws
(`delta_phi`, the waveplate index `wp`) are passed in as arguments, and `rb`
is the pair of cached positions read back by the trailing
`self._positions = self.get_positions()` after the relative move (the move
also refreshes the drivers' cached positions, so `wp0`/`wp1` become `rb`). -/
def random_minimizer (st : OptState) (qber delta_phi : ℚ) (wp : ℕ) (rb : ℚ × ℚ) :
    OptState × List Cmd :=
  let positions := (st.wp0, st.wp1)
  let st1 := { st with positions := select_operating_point st qber positions }
  let st2 := push_history st1 qber positions
  ({ st2 with positions := rb, wp0 := rb.1, wp1 := rb.2 }, [Cmd.moveRel wp delta_phi])

/-- Iterate `random_minimizer` over a list of
`(qber, delta_phi, wp, readback)` inputs. -/
def run_random (st : OptState) (steps : List (ℚ × ℚ × ℕ × ℚ × ℚ)) : OptState :=
  steps.foldl (fun s i => (random_minimizer s i.1 i.2.1 i.2.2.1 i.2.2.2).1) st

/-- `self._qbers[i] = v` on the 3-element sample buffer. -/
def set_qber (q : ℚ × ℚ × ℚ) (i : ℕ) (v : ℚ) : ℚ × ℚ × ℚ :=
  if i = 0 then (v, q.2.1, q.2.2)
  else if i = 1 then (q.1, v, q.2.2)
  else (q.1, q.2.1, v)

/-- Discrete first derivative, `Compensation` line 145:
`(q_r - q_l) / (2 * max_stepsize_deg)`. -/
def cd_dQ_dV (q_l q_r m : ℚ) : ℚ :=
  (q_r - q_l) / (2 * m)

/-- Discrete second derivative, `Compensation` lines 146–147:
`(q_r - 2*q + q_l) / max_stepsize_deg ** 2`. -/
def cd_d2Q_dV2 (q_l q q_r m : ℚ) : ℚ :=
  (q_r - 2 * q + q_l) / m ^ 2

/-- Step clamp, `Compensation` lines 150–152: sign is `-1` for a negative
step and `+1` otherwise, and a magnitude above 5 is replaced by `sign * 5`. -/
def cd_clamp (step : ℚ) : ℚ :=
  let sign : ℚ := if step < 0 then -1 else 1
  if |step| > 5 then sign * 5 else step

/-- `ContinuousPolarizationOptimizer.coordinate_descent_2nd_order` as a state
transition.  `rb` is the pair of cached positions read back by
`self._positions = self.get_positions()` after the moves of the call.

The compute phase (`current_pos == 0`) embeds the NumPy float semantics of
`step = dQ_dV / dQ2_dV2` when the second derivative is exactly zero:
`x / 0.0` is `±inf` for `x ≠ 0` (the clamp then turns it into `±5` and,
since `dQ2_dV2 > 0` is false, the move goes to `position + step`), while
`0.0 / 0.0` is NaN, which `int()` inside `move_absolute_deg` rejects with a
`ValueError` that propagates out of the method — modelled as `.error ()`. -/
def coordinate_descent_2nd_order (st : OptState) (qber : ℚ) (rb : ℚ × ℚ) :
    Except Unit (OptState × List Cmd) :=
  if qber < st.threshold then
    .ok ({ st with current_wp := 0, current_pos := 1 }, [])
  else
    let position := if st.current_pos = 1 then wp_cached st st.current_wp else st.origin_position
    let origin1 := if st.current_pos = 1 then position else st.origin_position
    let qbers1 := set_qber st.qbers st.current_pos qber
    let st' : OptState :=
      { st with origin_position := origin1
                qbers := qbers1
                positions := rb
                wp0 := rb.1
                wp1 := rb.2
                current_pos := (st.current_pos + 1) % 3
                current_wp := if (st.current_pos + 1) % 3 = 1 then (st.current_wp + 1) % 2
                              else st.current_wp }
    if st.current_pos = 1 then
      .ok (st', [Cmd.moveAbs st.current_wp (position + st.max_stepsize_deg)])
    else if st.current_pos = 2 then
      .ok (st', [Cmd.moveAbs st.current_wp (position - st.max_stepsize_deg)])
    else if st.current_pos = 0 then
      let dQ_dV := cd_dQ_dV qbers1.1 qbers1.2.2 st.max_stepsize_deg
      let dQ2_dV2 := cd_d2Q_dV2 qbers1.1 qbers1.2.1 qbers1.2.2 st.max_stepsize_deg
      if dQ2_dV2 = 0 then
        if dQ_dV = 0 then .error ()
        else .ok (st', [Cmd.moveAbs st.current_wp (position + (if dQ_dV < 0 then -5 else 5))])
      else
        let step := cd_clamp (dQ_dV / dQ2_dV2)
        if dQ2_dV2 > 0 then .ok (st', [Cmd.moveAbs st.current_wp (position - step)])
        else .ok (st', [Cmd.moveAbs st.current_wp (position + step)])
    else .ok (st', [])

/-- Concrete optimizer state for the threshold short-circuit example: mid-run
(stage 1, minus phase), threshold 0.01. -/
def stC5 : OptState :=
  { optimizer_init 2 (1/100) 1 0 0 with current_wp := 1, current_pos := 2 }

/-- Concrete optimizer state entering the compute phase with samples that
give an exactly-zero second derivative and a nonzero first derivative:
stored center sample 0.2 and right sample 0.3; the incoming QBER 0.1 becomes
the left sample, so d2Q/dV2 = (0.3 - 0.4 + 0.1)/4 = 0. -/
def stC2 : OptState :=
  { optimizer_init 2 (1/100) 1 0 0 with
      current_pos := 0, origin_position := 10, qbers := (99, 2/10, 3/10) }

/-- Concrete optimizer state entering the compute phase with all three
samples equal (the constructor's initial buffer 0.1/0.1/0.1 and incoming
QBER 0.1): both derivatives are zero, the NumPy step is NaN and
`move_absolute_deg` raises `ValueError`. -/
def stC2b : OptState :=
  { optimizer_init 2 (1/100) 1 0 0 with current_pos := 0, origin_position := 10 }

/-- Concrete optimizer state entering the compute phase with a raw Newton
step of 101 (clamped to 5): samples 0 / 0.05 / 0.101, max step 2,
threshold 0. -/
def stC8 : OptState :=
  { optimizer_init 2 0 1 0 0 with
      current_pos := 0, origin_position := 10, qbers := (77, 1/20, 101/1000) }

/-- State after the compute phase of `stC8`. -/
def stC8final : OptState :=
  { stC8 with qbers := (0, 1/20, 101/1000), positions := (0, 0), wp0 := 0, wp1 := 0,
              current_pos := 1, current_wp := 1 }

/-- Concrete random-search state holding the spec's example history:
stored QBERs 0.05 / 0.03 / 0.04 with distinct position rows. -/
def stC6 : OptState :=
  { optimizer_init 2 (1/100) 3 0 0 with
      previous_qbers := [1/20, 3/100, 1/25]
      previous_positions := [(1, 1), (2, 2), (3, 3)] }

/-! ### Helper lemmas -/

theorem pyInt_abs_sub_lt_one (q : ℚ) : |((pyInt q : ℤ) : ℚ) - q| < 1 := by
  unfold pyInt
  split
  · rename_i hq
    have h1 : q ≤ ((⌈q⌉ : ℤ) : ℚ) := Int.le_ceil q
    have h2 : ((⌈q⌉ : ℤ) : ℚ) < q + 1 := Int.ceil_lt_add_one q
    rw [abs_of_nonneg (by linarith)]
    linarith
  · have h1 : ((⌊q⌋ : ℤ) : ℚ) ≤ q := Int.floor_le q
    have h2 : q < ((⌊q⌋ : ℤ) : ℚ) + 1 := Int.lt_floor_add_one q
    rw [abs_of_nonpos (by linarith)]
    linarith

theorem pyInt_lt_two31 (q : ℚ) (h : q < 2 ^ 31) : pyInt q < 2 ^ 31 := by
  unfold pyInt
  split
  · rename_i hq
    have h0 : ⌈q⌉ ≤ 0 := Int.ceil_le.mpr (by exact_mod_cast hq.le)
    omega
  · have : ⌊q⌋ < (2 ^ 31 : ℤ) := Int.floor_lt.mpr (by exact_mod_cast h)
    exact this

theorem round2_close (q : ℚ) : |round2 q - q| ≤ 1 / 200 := by
  have h : |q * 100 - ((round (q * 100) : ℤ) : ℚ)| ≤ 1 / 2 := abs_sub_round (q * 100)
  rw [abs_sub_comm] at h
  have heq : round2 q - q = (((round (q * 100) : ℤ) : ℚ) - q * 100) / 100 := by
    unfold round2; ring
  rw [heq, abs_div, abs_of_pos (by norm_num : (0:ℚ) < 100)]
  linarith

/-! ### C1 — degree-to-pulse conversion rule -/

/-- C1 counterexample: the conversion is not round-to-nearest.  At 0.002°
with the shipped calibration constant 143360, the exact pulse value is
0.7964…, which `int` truncates to 0 while round-to-nearest gives 1. -/
theorem deg_to_pulses_not_round :
    deg_to_pulses 143360 (1/500) = 0 ∧ round ((1/500 : ℚ) * 143360 / 360) = 1 := by
  constructor
  · norm_num [deg_to_pulses, pyInt, Int.floor_eq_iff]
  · norm_num [round_eq, Int.floor_eq_iff]

/-- C1 (amended): the degree-to-pulse conversion used by `move_absolute_deg`
and `move_relative_deg` is Python `int`, i.e. truncation toward zero of
`a * pulses_per_turn / 360`: its magnitude is the floor of the magnitude and
the sign is the sign of the exact value. -/
theorem deg_to_pulses_truncates (ppt a : ℚ) :
    deg_to_pulses ppt a =
      if a * ppt / 360 < 0 then -⌊|a * ppt / 360|⌋ else ⌊|a * ppt / 360|⌋ := by
  unfold deg_to_pulses pyInt
  split
  · rename_i hx
    rw [abs_of_neg hx, show a * ppt / 360 = -(-(a * ppt / 360)) by ring, Int.ceil_neg]
    simp
  · rename_i hx
    push_neg at hx
    rw [abs_of_nonneg hx]

/-! ### C9 — degree/pulse round trip -/

/-- C9 counterexample: for angles large enough that the pulse count reaches
2^31 (about 5.39 million degrees at the shipped constant), `_pulses_to_deg`'s
two's-complement branch reinterprets the count as negative and the round trip
is off by millions of degrees. -/
theorem roundtrip_overflow_cex :
    ¬ |pulses_to_deg 143360 (deg_to_pulses 143360 6000000) - 6000000| ≤ 360 / 143360 := by
  have h : deg_to_pulses 143360 6000000 = 2389333333 := by
    norm_num [deg_to_pulses, pyInt, Int.floor_eq_iff]
  rw [h]
  unfold pulses_to_deg
  rw [if_pos (by norm_num : (2:ℤ) ^ 31 ≤ 2389333333)]
  rw [abs_of_nonpos (by norm_num)]
  norm_num

/-- C9 (amended): for every calibration constant `C > 0` and every angle `A`
whose exact pulse value `A * C / 360` is below `2^31` (so the truncated pulse
count escapes the two's-complement correction), the round trip
`pulses_to_deg (deg_to_pulses A)` is within one device step `360 / C` of `A`. -/
theorem deg_pulse_roundtrip_bounded (C A : ℚ) (hC : 0 < C) (h32 : A * C / 360 < 2 ^ 31) :
    |pulses_to_deg C (deg_to_pulses C A) - A| ≤ 360 / C := by
  have hp2 : deg_to_pulses C A < 2 ^ 31 := pyInt_lt_two31 _ h32
  have hp1 : |((deg_to_pulses C A : ℤ) : ℚ) - A * C / 360| < 1 :=
    pyInt_abs_sub_lt_one (A * C / 360)
  unfold pulses_to_deg
  rw [if_neg (not_le.mpr hp2)]
  have hA : ((deg_to_pulses C A : ℤ) : ℚ) * 360 / C - A =
      (((deg_to_pulses C A : ℤ) : ℚ) - A * C / 360) * (360 / C) := by
    field_simp
    ring
  rw [hA, abs_mul, abs_of_pos (by positivity : (0:ℚ) < 360 / C)]
  nlinarith [abs_nonneg (((deg_to_pulses C A : ℤ) : ℚ) - A * C / 360),
    div_pos (by norm_num : (0:ℚ) < 360) hC]

/-- C9 witness: at `A = -1°`, `C = 143360` the round trip lands within one
device step. -/
theorem deg_pulse_roundtrip_bounded_witness :
    |pulses_to_deg 143360 (deg_to_pulses 143360 (-1)) - (-1)| ≤ 360 / 143360 :=
  deg_pulse_roundtrip_bounded 143360 (-1) (by norm_num) (by norm_num)

/-! ### C10 — cached-position quantization -/

/-- C10: `_update_position` stores the decoded angle rounded to 2 decimals,
so the cached position is always an integer multiple of 0.01°, differs from
the device-reported angle by at most 0.005°, and at pulse count 2 (shipped
constant 143360) the quantization error exceeds one device step
`360 / 143360 ≈ 0.00251°`. -/
theorem position_quantization :
    (∀ n : ℤ, ∃ k : ℤ, round2 (pulses_to_deg 143360 n) = (k : ℚ) / 100) ∧
    (∀ n : ℤ, |round2 (pulses_to_deg 143360 n) - pulses_to_deg 143360 n| ≤ 1 / 200) ∧
    360 / 143360 < |round2 (pulses_to_deg 143360 2) - pulses_to_deg 143360 2| := by
  refine ⟨fun n => ⟨round (pulses_to_deg 143360 n * 100), rfl⟩,
          fun n => round2_close _, ?_⟩
  have h : pulses_to_deg 143360 2 = 9 / 1792 := by norm_num [pulses_to_deg]
  rw [h]
  have h2 : round2 (9 / 1792 : ℚ) = 1 / 100 := by
    norm_num [round2, round_eq, Int.floor_eq_iff]
  rw [h2, show |(1 : ℚ) / 100 - 9 / 1792| = |(223 : ℚ) / 44800| by norm_num,
      abs_of_pos (by norm_num : (0:ℚ) < 223 / 44800)]
  norm_num

/-! ### Parser lemmas for the driver's response decoding -/

theorem hex_not_ws (c : Char) (h : isPyWS c = true) : isHexDigit c = false := by
  simp only [isPyWS, Bool.or_eq_true, beq_iff_eq, or_assoc] at h
  rcases h with h | h | h | h | h | h <;> subst h <;> decide

theorem hex_ne_marks (c : Char) (h : isHexDigit c = true) :
    c ≠ '+' ∧ c ≠ '-' ∧ c ≠ 'x' ∧ c ≠ 'X' := by
  refine ⟨?_, ?_, ?_, ?_⟩ <;> rintro rfl <;> exact absurd h (by decide)

theorem dropWhile_ws_of_hex (cs : List Char) (h : ∀ c ∈ cs, isHexDigit c = true) :
    cs.dropWhile isPyWS = cs := by
  cases cs with
  | nil => rfl
  | cons c t =>
    have hc : isHexDigit c = true := h c (List.mem_cons_self c t)
    have hw : isPyWS c = false := by
      cases hpw : isPyWS c
      · rfl
      · rw [hex_not_ws c hpw] at hc; exact absurd hc (by decide)
    simp [List.dropWhile_cons, hw]

theorem stripWS_of_hex (cs : List Char) (h : ∀ c ∈ cs, isHexDigit c = true) :
    stripWS cs = cs := by
  unfold stripWS
  rw [dropWhile_ws_of_hex cs h,
      dropWhile_ws_of_hex cs.reverse (fun c hc => h c (List.mem_reverse.mp hc)),
      List.reverse_reverse]

theorem hexGo_all_hex (cs : List Char) : ∀ acc : ℕ, (∀ c ∈ cs, isHexDigit c = true) →
    hexGo cs acc = some (cs.foldl (fun a c => 16 * a + hexVal c) acc) := by
  induction cs with
  | nil => intro acc _; rfl
  | cons c t ih =>
    intro acc h
    have hc := h c (List.mem_cons_self c t)
    have hstep : hexGo (c :: t) acc = hexGo t (16 * acc + hexVal c) := by
      conv_lhs => rw [hexGo.eq_def]
      simp [hc]
    rw [hstep, ih (16 * acc + hexVal c) (fun x hx => h x (List.mem_cons_of_mem c hx)),
        List.foldl_cons]

theorem parseHexDigits_all_hex (cs : List Char) (hne : cs ≠ [])
    (h : ∀ c ∈ cs, isHexDigit c = true) :
    parseHexDigits cs = some (hexValue cs) := by
  cases cs with
  | nil => exact absurd rfl hne
  | cons c t =>
    have hc := h c (List.mem_cons_self c t)
    have ht := hexGo_all_hex t (hexVal c) (fun x hx => h x (List.mem_cons_of_mem c hx))
    simp [parseHexDigits, hc, ht, hexValue]

theorem pyIntHex_all_hex (s : String) (hne : s.toList ≠ [])
    (h : ∀ c ∈ s.toList, isHexDigit c = true) :
    pyIntHex s = some ((hexValue s.toList : ℕ) : ℤ) := by
  unfold pyIntHex
  rw [stripWS_of_hex s.toList h]
  cases hcs : s.toList with
  | nil => exact absurd hcs hne
  | cons c rest =>
    have hc : isHexDigit c = true := by
      apply h; rw [hcs]; exact List.mem_cons_self c rest
    obtain ⟨hplus, hminus, -, -⟩ := hex_ne_marks c hc
    have hbody : parseHexBody (c :: rest) = some (hexValue (c :: rest)) := by
      cases rest with
      | nil =>
        have := parseHexDigits_all_hex [c] (by simp) (by
          intro x hx
          rw [List.mem_singleton] at hx
          subst hx; exact hc)
        simpa [parseHexBody] using this
      | cons c1 r2 =>
        have hc1 : isHexDigit c1 = true := by
          apply h; rw [hcs]; exact List.mem_cons_of_mem c (List.mem_cons_self c1 r2)
        obtain ⟨-, -, hx, hX⟩ := hex_ne_marks c1 hc1
        have hcond : ¬ (c = '0' ∧ (c1 = 'x' ∨ c1 = 'X')) := by
          rintro ⟨-, h1 | h1⟩
          · exact hx h1
          · exact hX h1
        have hall : ∀ x ∈ c :: c1 :: r2, isHexDigit x = true := by
          intro x hx2; apply h; rw [hcs]; exact hx2
        simp [parseHexBody, hcond, parseHexDigits_all_hex (c :: c1 :: r2) (by simp) hall]
    have hall2 : ∀ x ∈ c :: rest, isHexDigit x = true := by
      intro x hx2; apply h; rw [hcs]; exact hx2
    simp [hplus, hminus, hbody]

/-! ### C4 — position-update error handling -/

/-- C4: `_update_position` is total; when the parse of the last 8 response
characters fails (`ValueError` caught) the cached position is unchanged, and
when the trailing characters are hexadecimal digits the cached position
becomes the decoded angle rounded to 2 decimals. -/
theorem update_position_contract (ppt pos : ℚ) (resp : String) :
    (pyIntHex (lastEight resp) = none → update_position ppt pos resp = pos) ∧
    ((lastEight resp).toList ≠ [] →
     (∀ c ∈ (lastEight resp).toList, isHexDigit c = true) →
     update_position ppt pos resp =
       round2 (pulses_to_deg ppt (hexValue (lastEight resp).toList))) := by
  constructor
  · intro h
    simp [update_position, h]
  · intro h1 h2
    simp [update_position, pyIntHex_all_hex _ h1 h2]

/-- C4 witness: an unparsable response leaves the cached position at 5°; the
response `0PO00000400` (trailing field `00000400` = 1024 pulses) updates it
to `round(1024 * 360 / 143360, 2) = 2.57°`. -/
theorem update_position_contract_witness :
    update_position 143360 5 "garbage" = 5 ∧
    update_position 143360 5 "0PO00000400" = 257/100 := by
  constructor
  · exact (update_position_contract 143360 5 "garbage").1 (by decide)
  · refine ((update_position_contract 143360 5 "0PO00000400").2 (by decide) (by decide)).trans ?_
    have h : hexValue (lastEight "0PO00000400").toList = 1024 := by decide
    rw [h]
    norm_num [pulses_to_deg, round2, round_eq, Int.floor_eq_iff]

/-! ### C5 — threshold short-circuit -/

/-- C5: whenever the incoming QBER is strictly below the threshold,
`coordinate_descent_2nd_order` resets the state machine to stage 0 and the
center phase (`_current_pos = 1`), issues no move, and changes no other
state. -/
theorem cd_threshold_reset (st : OptState) (qber : ℚ) (rb : ℚ × ℚ)
    (h : qber < st.threshold) :
    coordinate_descent_2nd_order st qber rb =
      .ok ({ st with current_wp := 0, current_pos := 1 }, []) := by
  unfold coordinate_descent_2nd_order
  rw [if_pos h]

/-- C5 witness: with threshold 0.01 and incoming QBER 0.005, a mid-run state
(stage 1, minus phase) resets to (stage 0, center) with no move. -/
theorem cd_threshold_reset_witness :
    coordinate_descent_2nd_order stC5 (1/200) (0, 0) =
      .ok ({ stC5 with current_wp := 0, current_pos := 1 }, []) :=
  cd_threshold_reset stC5 (1/200) (0, 0) (by norm_num [stC5, optimizer_init])

/-! ### C2 — zero second derivative in the compute phase -/

/-- C2: the code does not treat a zero second derivative as a fault.  With
samples 0.1/0.2/0.3 (curvature exactly zero, slope 0.05) the NumPy division
by zero produces an infinite step, the clamp caps it at 5, and a move to
`origin_position + 5 = 15` is issued; with all samples equal (both
derivatives zero) the NaN step makes `int()` raise `ValueError`, which
escapes the method — a fatal fault, not a skipped cycle. -/
theorem cd_zero_curvature_moves :
    coordinate_descent_2nd_order stC2 (1/10) (0, 0) =
      .ok ({ stC2 with qbers := (1/10, 2/10, 3/10), current_pos := 1, current_wp := 1 },
           [Cmd.moveAbs 0 15]) ∧
    coordinate_descent_2nd_order stC2b (1/10) (0, 0) = .error () := by
  constructor <;>
    norm_num [coordinate_descent_2nd_order, stC2, stC2b, optimizer_init, set_qber,
              wp_cached, cd_dQ_dV, cd_d2Q_dV2, cd_clamp]

/-! ### C8 — Newton step clamp and move direction -/

/-- C8: in the compute phase with nonzero curvature `d2`, exactly one
absolute move is issued, to `origin_position - clamp(step)` when `d2 > 0`
and `origin_position + clamp(step)` when `d2 < 0`, where the raw Newton step
`dv / d2` is capped at magnitude 5 with its sign preserved and left
unchanged when its magnitude is at most 5. -/
theorem cd_compute_clamped_move (st : OptState) (qber : ℚ) (rb : ℚ × ℚ) (dv d2 : ℚ)
    (h0 : st.current_pos = 0) (ht : st.threshold ≤ qber)
    (hdv : dv = cd_dQ_dV qber st.qbers.2.2 st.max_stepsize_deg)
    (hd2 : d2 = cd_d2Q_dV2 qber st.qbers.2.1 st.qbers.2.2 st.max_stepsize_deg)
    (hd : d2 ≠ 0) :
    coordinate_descent_2nd_order st qber rb =
      .ok ({ st with qbers := (qber, st.qbers.2.1, st.qbers.2.2),
                     positions := rb, wp0 := rb.1, wp1 := rb.2,
                     current_pos := 1, current_wp := (st.current_wp + 1) % 2 },
           [Cmd.moveAbs st.current_wp
             (if 0 < d2 then st.origin_position - cd_clamp (dv / d2)
              else st.origin_position + cd_clamp (dv / d2))]) ∧
    (5 < |dv / d2| → cd_clamp (dv / d2) = if dv / d2 < 0 then -5 else 5) ∧
    (|dv / d2| ≤ 5 → cd_clamp (dv / d2) = dv / d2) := by
  subst hdv
  subst hd2
  refine ⟨?_, ?_, ?_⟩
  · by_cases hpos : 0 < cd_d2Q_dV2 qber st.qbers.2.1 st.qbers.2.2 st.max_stepsize_deg <;>
      simp [coordinate_descent_2nd_order, set_qber, h0, not_lt.mpr ht, hd, hpos]
  · intro h5
    simp only [cd_clamp]
    rw [if_pos (by exact h5)]
    split_ifs <;> ring
  · intro h5
    simp only [cd_clamp]
    rw [if_neg (not_lt.mpr h5)]

/-- C8 witness: samples 0 / 0.05 / 0.101 with max step 2 give a raw Newton
step of 101, clamped to 5; the curvature is positive so the stage moves to
`origin_position - 5 = 5`. -/
theorem cd_compute_clamped_move_witness :
    coordinate_descent_2nd_order stC8 0 (0, 0) = .ok (stC8final, [Cmd.moveAbs 0 5]) := by
  have h := (cd_compute_clamped_move stC8 0 (0, 0) (101/4000) (1/4000)
    (by norm_num [stC8, optimizer_init])
    (by norm_num [stC8, optimizer_init])
    (by norm_num [stC8, optimizer_init, cd_dQ_dV])
    (by norm_num [stC8, optimizer_init, cd_d2Q_dV2])
    (by norm_num)).1
  rw [h]
  norm_num [stC8, stC8final, optimizer_init, cd_clamp]

/-! ### C3 — no construction-time validation -/

/-- C3: the constructors perform no validation: a negative
`max_stepsize_deg`, a zero `n_stored`, and a non-hex driver address are all
stored as given, and a control-loop step still runs on the resulting
optimizer (it issues its relative move). -/
theorem init_accepts_invalid_config :
    (optimizer_init (-1) (1/100) 0 0 0).max_stepsize_deg = -1 ∧
    (optimizer_init (-1) (1/100) 0 0 0).n_stored = 0 ∧
    ElliptecController.init "Z" = { address := "Z", position := 0 } ∧
    (random_minimizer (optimizer_init (-1) (1/100) 0 0 0) (1/10) 1 0 (0, 0)).2 =
      [Cmd.moveRel 0 1] :=
  ⟨rfl, rfl, rfl, rfl⟩

/-! ### C6 — strict-minimum rule of the random search -/

theorem argmin_attains : ∀ l : List ℚ, l ≠ [] → l.getD (argmin l) 0 = listMin l
  | [], h => absurd rfl h
  | [x], _ => by simp [argmin, listMin]
  | x :: y :: tl, _ => by
    have ih := argmin_attains (y :: tl) (by simp)
    by_cases hx : x ≤ listMin (y :: tl)
    · rw [show argmin (x :: y :: tl) = 0 from by simp [argmin, hx]]
      simp [listMin, min_eq_left hx]
    · rw [show argmin (x :: y :: tl) = argmin (y :: tl) + 1 from by simp [argmin, hx]]
      push_neg at hx
      rw [List.getD_cons_succ, ih]
      simp [listMin, min_eq_right hx.le]

/-- C6: `random_minimizer`'s operating-point selection adopts the freshly
read positions exactly when the incoming QBER is strictly below the minimum
of the stored QBERs; otherwise — including on an exact tie — it reverts to
the stored position row whose QBER attains the stored minimum. -/
theorem random_select_strict_min (st : OptState) (qber : ℚ) (positions : ℚ × ℚ)
    (h : st.previous_qbers ≠ []) :
    (qber < listMin st.previous_qbers →
      select_operating_point st qber positions = positions) ∧
    (listMin st.previous_qbers ≤ qber →
      select_operating_point st qber positions =
        st.previous_positions.getD (argmin st.previous_qbers) (0, 0) ∧
      st.previous_qbers.getD (argmin st.previous_qbers) 0 = listMin st.previous_qbers) := by
  constructor
  · intro hlt
    simp [select_operating_point, hlt]
  · intro hle
    refine ⟨?_, argmin_attains _ h⟩
    simp [select_operating_point, not_lt.mpr hle]

/-- C6 witness (the spec's tie example): stored QBERs 0.05 / 0.03 / 0.04 and
a new sample 0.04 — the optimizer reverts to the position row of 0.03, not
the new sample's positions. -/
theorem random_select_strict_min_witness :
    select_operating_point stC6 (1/25) (9, 9) = (2, 2) := by
  have h := ((random_select_strict_min stC6 (1/25) (9, 9)
      (by simp [stC6, optimizer_init])).2
      (by norm_num [stC6, optimizer_init, listMin, min_def])).1
  rw [h]
  norm_num [stC6, optimizer_init, argmin, listMin, min_def]

/-! ### C7 — ring-buffer capacity -/

theorem push_history_n_stored (st : OptState) (q : ℚ) (p : ℚ × ℚ) :
    (push_history st q p).n_stored = st.n_stored := by
  unfold push_history
  split <;> rfl

theorem push_history_len (st : OptState) (q : ℚ) (p : ℚ × ℚ)
    (hn : 1 ≤ st.n_stored) (h : (st.previous_qbers.length : ℤ) ≤ st.n_stored) :
    ((push_history st q p).previous_qbers.length : ℤ) ≤ st.n_stored := by
  unfold push_history
  split
  · rename_i hlt
    simp only [List.length_append, List.length_cons, List.length_nil]
    omega
  · rename_i hge
    have htail : st.previous_qbers.tail.length = st.previous_qbers.length - 1 :=
      List.length_tail _
    simp only [List.length_append, List.length_cons, List.length_nil, htail]
    omega

theorem random_minimizer_len (st : OptState) (q d : ℚ) (w : ℕ) (rb : ℚ × ℚ)
    (hn : 1 ≤ st.n_stored) (h : (st.previous_qbers.length : ℤ) ≤ st.n_stored) :
    ((random_minimizer st q d w rb).1.previous_qbers.length : ℤ) ≤ st.n_stored ∧
    (random_minimizer st q d w rb).1.n_stored = st.n_stored := by
  constructor
  · exact push_history_len { st with positions := select_operating_point st q (st.wp0, st.wp1) }
      q (st.wp0, st.wp1) hn h
  · exact push_history_n_stored
      { st with positions := select_operating_point st q (st.wp0, st.wp1) } q (st.wp0, st.wp1)

theorem run_random_len (steps : List (ℚ × ℚ × ℕ × ℚ × ℚ)) :
    ∀ st : OptState, 1 ≤ st.n_stored → (st.previous_qbers.length : ℤ) ≤ st.n_stored →
      ((run_random st steps).previous_qbers.length : ℤ) ≤ st.n_stored ∧
      (run_random st steps).n_stored = st.n_stored := by
  induction steps with
  | nil => exact fun st _ h2 => ⟨h2, rfl⟩
  | cons a rest ih =>
    intro st h1 h2
    have hstep := random_minimizer_len st a.1 a.2.1 a.2.2.1 a.2.2.2 h1 h2
    have hrun : run_random st (a :: rest) =
        run_random (random_minimizer st a.1 a.2.1 a.2.2.1 a.2.2.2).1 rest := rfl
    rw [hrun]
    have hrec := ih (random_minimizer st a.1 a.2.1 a.2.2.1 a.2.2.2).1
      (by rw [hstep.2]; exact h1) (by rw [hstep.2]; exact hstep.1)
    exact ⟨by rw [← hstep.2]; exact hrec.1, by rw [hrec.2, hstep.2]⟩

/-- C7: starting from a freshly constructed optimizer (one seed entry in the
history) with capacity `n_stored ≥ 1`, after any sequence of
`random_minimizer` steps the history length never exceeds `n_stored`: each
step appends when below capacity and otherwise drops the oldest entry before
appending. -/
theorem ring_buffer_cap (m t : ℚ) (n : ℤ) (w0 w1 : ℚ)
    (steps : List (ℚ × ℚ × ℕ × ℚ × ℚ)) (hn : 1 ≤ n) :
    ((run_random (optimizer_init m t n w0 w1) steps).previous_qbers.length : ℤ) ≤ n :=
  (run_random_len steps (optimizer_init m t n w0 w1) hn
    (by simpa [optimizer_init] using hn)).1

/-- C7 witness (the spec's example): capacity 3, four inserts — the length
stays at most 3 (it is exactly 3, the seed entry and first insert evicted). -/
theorem ring_buffer_cap_witness :
    ((run_random (optimizer_init 2 (1/100) 3 0 0)
        [(1/10, 1, 0, 0, 0), (2/10, 1, 0, 0, 0), (3/10, 1, 1, 0, 0), (4/10, 1, 1, 0, 0)]
      ).previous_qbers.length : ℤ) ≤ 3 :=
  ring_buffer_cap 2 (1/100) 3 0 0 _ (by norm_num)
